import Mathlib

/-!
Shallow embedding of `pikaur/core.py` (the configuration-ingestion and
strict-record subsystem).  Text lines and keys are modelled as `List Char`,
Python `dict`s as association lists (`List (key × value)`) where a later
insertion for an existing key replaces the stored value in place, mirroring
CPython dict semantics.  Fallible operations return `Except`; the raising of
a Python exception is modelled by the `.error` constructor, and mutation of
class-level state (`ConfigReader._cached_config`) is modelled by explicit
state passing of a `CRState` record.
-/

set_option autoImplicit false

universe u

/-- The double-quote character `"` (Python `'"'`). -/
def dquoteCh : Char := Char.ofNat 34

/-- The single-quote character (Python `"'"`). -/
def squoteCh : Char := Char.ofNat 39

/-- Python `str.split(sep)` for a one-character separator: splits at every
occurrence of `sep`, keeping empty parts, so the result is always non-empty. -/
def pySplit (sep : Char) : List Char → List (List Char)
  | [] => [[]]
  | c :: rest =>
    if c = sep then [] :: pySplit sep rest
    else
      match pySplit sep rest with
      | [] => [[c]]
      | p :: ps => (c :: p) :: ps

/-- Python `sep.join(parts)` for a one-character separator. -/
def pyJoin (sep : Char) : List (List Char) → List Char
  | [] => []
  | [p] => p
  | p :: ps => p ++ sep :: pyJoin sep ps

/-- The characters Python `str.strip()` removes (ASCII whitespace:
space, tab, newline, carriage return, vertical tab, form feed). -/
def isPySpace (c : Char) : Bool :=
  c = ' ' || c = '\t' || c = '\n' || c = '\r' || c = Char.ofNat 11 || c = Char.ofNat 12

/-- Drop the longest suffix of characters satisfying `p`
(the right half of Python `str.strip`). -/
def pyDropRightWhile (p : Char → Bool) : List Char → List Char
  | [] => []
  | c :: rest =>
    match pyDropRightWhile p rest with
    | [] => if p c then [] else [c]
    | r => c :: r

/-- Strip the longest prefix and suffix of characters satisfying `p`. -/
def pyStripWith (p : Char → Bool) (s : List Char) : List Char :=
  pyDropRightWhile p (s.dropWhile p)

/-- Python `str.strip()` with no argument: strip surrounding whitespace. -/
def pyStrip (s : List Char) : List Char :=
  pyStripWith isPySpace s

/-- Python `str.strip(chars)`: strip every leading and trailing character
that occurs in `cs` (all occurrences, not a single layer). -/
def pyStripChars (cs : List Char) (s : List Char) : List Char :=
  pyStripWith (fun c => decide (c ∈ cs)) s

/-- Python `str.split()` with no argument: split on runs of whitespace,
producing no empty tokens.  `cur` accumulates the current token reversed. -/
def pySplitWsGo (cur : List Char) : List Char → List (List Char)
  | [] => if cur = [] then [] else [cur.reverse]
  | c :: rest =>
    if isPySpace c then
      if cur = [] then pySplitWsGo [] rest
      else cur.reverse :: pySplitWsGo [] rest
    else pySplitWsGo (c :: cur) rest

/-- Python `str.split()` with no argument. -/
def pySplitWs (s : List Char) : List (List Char) :=
  pySplitWsGo [] s

/-- Replace the value stored for `k`, or append the binding if `k` is absent:
the effect of `d[k] = v` on a Python dict modelled as an association list. -/
def setVal {κ β : Type u} [DecidableEq κ] :
    List (κ × β) → κ → β → List (κ × β)
  | [], k, v => [(k, v)]
  | (k', v') :: t, k, v =>
    if k' = k then (k, v) :: t else (k', v') :: setVal t k v

/-- Python `d.get(k)` on a dict modelled as an association list. -/
def pyGet {κ β : Type u} [DecidableEq κ] : List (κ × β) → κ → Option β
  | [], _ => none
  | (k', v') :: t, k => if k' = k then some v' else pyGet t k

/-- A parsed config value: `CONFIG_VALUE_TYPE = Union[str, List[str]]`. -/
inductive ConfigValue where
  | str (s : List Char)
  | list (l : List (List Char))
deriving DecidableEq, Repr

/-- Python truthiness of a `CONFIG_VALUE_TYPE`: the empty string and the
empty list are falsy, every other value is truthy. -/
def truthy : ConfigValue → Bool
  | .str s => s ≠ []
  | .list l => l ≠ []

namespace ConfigReader

/-- `ConfigReader.comment_prefixes = ('#', ';')`. -/
def comment_prefixes : List Char := ['#', ';']

/-- The comment-stripping loop of `_parse_line`:
`for comment_prefix in cls.comment_prefixes: line, *_ = line.split(comment_prefix)`. -/
def commentStrip (s : List Char) : List Char :=
  comment_prefixes.foldl (fun l p => (pySplit p l).headD []) s

/-- The tail of `_parse_line` after the start-of-line checks, whitespace
stripping and comment stripping: key/value split on `=`, ignored-field
filtering, quote stripping and list-field splitting. -/
def parseKeyVal (list_fields ignored_fields : List (List Char)) (l : List Char) :
    Option (List Char × ConfigValue) :=
  let parts := pySplit '=' l
  let key := pyStrip (parts.headD [])
  let value := pyStrip (pyJoin '=' parts.tail)
  if key ∈ ignored_fields then none
  else if value = [] then some (key, .str value)
  else
    let v := pyStripChars [squoteCh] (pyStripChars [dquoteCh] value)
    if key ∈ list_fields then some (key, .list (pySplitWs v))
    else some (key, .str v)

/-- `ConfigReader._parse_line`.  The blank marker `(None, None)` is modelled
as `none`; a successful parse `(key, value)` as `some (key, value)`.
The function is a total Lean function: parsing never fails. -/
def parse_line (list_fields ignored_fields : List (List Char)) (line : List Char) :
    Option (List Char × ConfigValue) :=
  if line.head? = some ' ' then none
  else if '=' ∉ line then none
  else parseKeyVal list_fields ignored_fields (commentStrip (pyStrip line))

/-- A parsed config file: `CONFIG_FORMAT = Dict[str, CONFIG_VALUE_TYPE]`. -/
abbrev ConfigMapping := List (List Char × ConfigValue)

/-- The dict comprehension in `get_config`:
`{key: value for key, value in [cls._parse_line(line) for line in lines] if key}` —
blank markers (`none`) and falsy (empty-string) keys contribute nothing,
and a later line with the same key overwrites an earlier one. -/
def buildMapping (list_fields ignored_fields : List (List Char))
    (lines : List (List Char)) : ConfigMapping :=
  ((lines.filterMap (parse_line list_fields ignored_fields)).filter
    (fun kv => kv.1 ≠ [])).foldl (fun d kv => setVal d kv.1 kv.2) []

/-- `config_path = config_path or cls.default_config_path`: Python `or`
falls through to the default when the argument is `None` or falsy (`""`). -/
def resolvePath (config_path : Option String) (default_config_path : String) : String :=
  match config_path with
  | some s => if s = "" then default_config_path else s
  | none => default_config_path

/-- The mutable class-level state of `ConfigReader`: the `_cached_config`
dict (its initial `None` and the falsy-reset to `{}` both behave as the
empty association list) plus a count of file opens, the read-count probe
for observing file I/O. -/
structure CRState where
  cache : List (String × ConfigMapping)
  reads : Nat
deriving DecidableEq, Repr

/-- `ConfigReader.get_config`.  The filesystem is a function `fs` from path
to the file's lines, `none` meaning `open_file` raises; that exception is
modelled as `.error ()` and the resulting state is returned alongside so
that cache (non-)mutation is observable.  A parse increments `reads`. -/
def get_config (fs : String → Option (List (List Char)))
    (list_fields ignored_fields : List (List Char))
    (default_config_path : String) (config_path : Option String)
    (st : CRState) : Except Unit ConfigMapping × CRState :=
  let path := resolvePath config_path default_config_path
  let cached := (pyGet st.cache path).getD []
  if cached ≠ [] then (.ok cached, st)
  else
    match fs path with
    | none => (.error (), st)
    | some lines =>
      let m := buildMapping list_fields ignored_fields lines
      (.ok m, ⟨setVal st.cache path m, st.reads + 1⟩)

/-- `ConfigReader.get`:
`cls.get_config(config_path=config_path).get(key) or fallback`.
The result of `.get(key)` is `none` when absent; Python `or` yields the
fallback when that result is `None` or falsy. -/
def get (fs : String → Option (List (List Char)))
    (list_fields ignored_fields : List (List Char))
    (default_config_path : String) (key : List Char) (fallback : Option ConfigValue)
    (config_path : Option String) (st : CRState) :
    Except Unit (Option ConfigValue) × CRState :=
  match get_config fs list_fields ignored_fields default_config_path config_path st with
  | (.ok m, st') =>
    (.ok (match pyGet m key with
          | some v => if truthy v then some v else fallback
          | none => fallback), st')
  | (.error e, st') => (.error e, st')

end ConfigReader

/-- A `DataType` instance: its class name, the attribute names findable on
the class (methods and class-level defaults — for the base `DataType` class
itself, just the two methods defined in its body), and the instance
`__dict__`. -/
structure DataType (α : Type) where
  className : String
  classAttrs : List String
  dict : List (String × α)
deriving DecidableEq, Repr

/-- `getattr(self, key, NOT_FOUND_ATOM) is NOT_FOUND_ATOM` is false exactly
when `key` is an instance attribute or findable on the class. -/
def hasattrB {α : Type} (o : DataType α) (key : String) : Bool :=
  (pyGet o.dict key).isSome || decide (key ∈ o.classAttrs)

/-- The message of the `TypeError` raised by `DataType.__setattr__`. -/
def dtErrMsg (className key : String) : String :=
  String.singleton squoteCh ++ className ++ String.singleton squoteCh ++
    " does not have attribute " ++
    String.singleton squoteCh ++ key ++ String.singleton squoteCh

/-- `DataType.__setattr__`: raises `TypeError` when `key` is not found on
the instance (returning the instance unchanged), otherwise stores the value
in the instance `__dict__`. -/
def dataTypeSetattr {α : Type} (o : DataType α) (key : String) (v : α) :
    Except String Unit × DataType α :=
  if hasattrB o key then (.ok (), { o with dict := setVal o.dict key v })
  else (.error (dtErrMsg o.className key), o)

/-- The loop of `DataType.__init__`: `for key, value in kwargs.items():
setattr(self, key, value)` — a raised `TypeError` aborts the loop. -/
def dataTypeInitGo {α : Type} (o : DataType α) :
    List (String × α) → Except String Unit × DataType α
  | [] => (.ok (), o)
  | (k, v) :: rest =>
    match dataTypeSetattr o k v with
    | (.ok _, o') => dataTypeInitGo o' rest
    | (.error e, o') => (.error e, o')

/-- `DataType(**kwargs)`: a fresh instance has an empty `__dict__`. -/
def dataTypeInit {α : Type} (className : String) (classAttrs : List String)
    (kwargs : List (String × α)) : Except String Unit × DataType α :=
  dataTypeInitGo ⟨className, classAttrs, []⟩ kwargs

/-- The attributes findable on the base `DataType` class itself: only the
two methods defined in its body (the dunder attributes inherited from
`object` are omitted; none of them is a plausible field name). -/
def dataTypeBaseAttrs : List String := ["__init__", "__setattr__"]

/-- `get_chunks`'s generator loop: `result` is the pending chunk, `index`
its length; a chunk is yielded when `index` reaches `chunk_size`, and the
non-empty remainder is yielded after the loop. -/
def getChunksGo {α : Type u} (chunk_size : Nat) :
    List α → List α → Nat → List (List α)
  | result, [], _ => if result.isEmpty then [] else [result]
  | result, x :: xs, index =>
    let r := result ++ [x]
    let i := index + 1
    if i = chunk_size then r :: getChunksGo chunk_size [] xs 0
    else getChunksGo chunk_size r xs i

/-- `get_chunks(iterable, chunk_size)`, the produced chunks as a list. -/
def get_chunks {α : Type u} (xs : List α) (chunk_size : Nat) : List (List α) :=
  getChunksGo chunk_size [] xs 0

/-! ### Association-list helper lemmas -/

theorem pyGet_setVal_self {κ β : Type u} [DecidableEq κ] (d : List (κ × β)) (k : κ) (v : β) :
    pyGet (setVal d k v) k = some v := by
  induction d with
  | nil => simp [setVal, pyGet]
  | cons hd t ih =>
    obtain ⟨k', v'⟩ := hd
    by_cases h : k' = k
    · simp [setVal, h, pyGet]
    · simp [setVal, h, pyGet, ih]

theorem pyGet_setVal_ne {κ β : Type u} [DecidableEq κ] (d : List (κ × β)) (k k' : κ) (v : β)
    (h : k' ≠ k) : pyGet (setVal d k v) k' = pyGet d k' := by
  induction d with
  | nil => simp [setVal, pyGet, Ne.symm h]
  | cons hd t ih =>
    obtain ⟨a, b⟩ := hd
    by_cases ha : a = k
    · subst ha
      have : ¬ a = k' := fun hh => h hh.symm
      simp [setVal, pyGet, this]
    · simp [setVal, ha, pyGet, ih]

theorem pyGet_foldl_setVal_not_mem {κ β : Type u} [DecidableEq κ] :
    ∀ (kwargs : List (κ × β)) (d : List (κ × β)) (k : κ),
      k ∉ kwargs.map Prod.fst →
      pyGet (kwargs.foldl (fun d kv => setVal d kv.1 kv.2) d) k = pyGet d k := by
  intro kwargs
  induction kwargs with
  | nil => intro d k _; rfl
  | cons kv rest ih =>
    intro d k hk
    obtain ⟨k0, v0⟩ := kv
    simp only [List.map_cons, List.mem_cons] at hk
    push_neg at hk
    simpa [List.foldl_cons] using
      (ih (setVal d k0 v0) k hk.2).trans (pyGet_setVal_ne d k0 k v0 hk.1)

theorem pyGet_foldl_setVal_mem {κ β : Type u} [DecidableEq κ] :
    ∀ (kwargs : List (κ × β)) (d : List (κ × β)) (k : κ) (v : β),
      (k, v) ∈ kwargs → (kwargs.map Prod.fst).Nodup →
      pyGet (kwargs.foldl (fun d kv => setVal d kv.1 kv.2) d) k = some v := by
  intro kwargs
  induction kwargs with
  | nil => intro d k v h _; cases h
  | cons kv rest ih =>
    intro d k v hmem hnd
    obtain ⟨k0, v0⟩ := kv
    simp only [List.map_cons, List.nodup_cons] at hnd
    rcases List.mem_cons.mp hmem with heq | hrest
    · injection heq with h1 h2
      subst h1
      subst h2
      simp only [List.foldl_cons]
      exact (pyGet_foldl_setVal_not_mem rest (setVal d k v) k hnd.1).trans
        (pyGet_setVal_self d k v)
    · simpa [List.foldl_cons] using ih (setVal d k0 v0) k v hrest hnd.2

/-- Lines whose parse is the blank marker contribute nothing to the mapping. -/
theorem buildMapping_skip (lf igf : List (List Char)) (line : List Char)
    (h : ConfigReader.parse_line lf igf line = none) (pre post : List (List Char)) :
    ConfigReader.buildMapping lf igf (pre ++ line :: post) =
      ConfigReader.buildMapping lf igf (pre ++ post) := by
  unfold ConfigReader.buildMapping
  simp [List.filterMap_append, List.filterMap_cons, h]

/-! ### Claim C5: which lines are skipped as indented -/

/-- Claim C5, counterexample.  A line beginning with a tab character is NOT
skipped: `_parse_line` only tests `line.startswith(' ')`, so a tab-indented
`key=value` line still contributes its key to the mapping, contradicting
the claim that every line beginning with any whitespace character is
skipped entirely. -/
theorem c5_counterexample :
    ConfigReader.parse_line [] [] ['\t', 'a', '=', '1'] =
      some (['a'], ConfigValue.str ['1']) ∧
    ConfigReader.buildMapping [] [] [['\t', 'a', '=', '1']] =
      [(['a'], ConfigValue.str ['1'])] := by
  exact ⟨rfl, rfl⟩

/-- Claim C5, amended: only a line whose first character is the space
character `' '` is skipped by the indentation rule; such a line contributes
no key to the resulting mapping.  (Lines beginning with other whitespace,
e.g. a tab, are processed normally.) -/
theorem c5_theorem (lf igf : List (List Char)) (line : List Char)
    (h : line.head? = some ' ') :
    ConfigReader.parse_line lf igf line = none ∧
    ∀ pre post, ConfigReader.buildMapping lf igf (pre ++ line :: post) =
      ConfigReader.buildMapping lf igf (pre ++ post) := by
  have hp : ConfigReader.parse_line lf igf line = none := by
    unfold ConfigReader.parse_line
    rw [h]
    simp
  exact ⟨hp, fun pre post => buildMapping_skip lf igf line hp pre post⟩

/-- Claim C5, witness: a space-indented line parses to the blank marker. -/
theorem c5_witness :
    ConfigReader.parse_line [] [] [' ', 'a', '=', '1'] = none ∧
    ∀ pre post, ConfigReader.buildMapping [] [] (pre ++ [' ', 'a', '=', '1'] :: post) =
      ConfigReader.buildMapping [] [] (pre ++ post) :=
  c5_theorem [] [] [' ', 'a', '=', '1'] rfl

/-! ### Claims C6 and C1: the Strict Record (`DataType`) -/

/-- Claim C6: `DataType.__setattr__` raises a `TypeError` whose message
names the class and the offending attribute when the name is not findable
on the instance, returning the instance unchanged; when the name is already
present on the instance, assignment succeeds and updates the stored value
while leaving every other attribute untouched. -/
theorem c6_theorem (α : Type) (o : DataType α) (key : String) (v : α) :
    (hasattrB o key = false →
      dataTypeSetattr o key v = (.error (dtErrMsg o.className key), o)) ∧
    (∀ w, pyGet o.dict key = some w →
      dataTypeSetattr o key v = (.ok (), { o with dict := setVal o.dict key v }) ∧
      pyGet (setVal o.dict key v) key = some v ∧
      ∀ k', k' ≠ key → pyGet (setVal o.dict key v) k' = pyGet o.dict k') := by
  constructor
  · intro h
    simp [dataTypeSetattr, h]
  · intro w hw
    have hh : hasattrB o key = true := by simp [hasattrB, hw]
    exact ⟨by simp [dataTypeSetattr, hh], pyGet_setVal_self o.dict key v,
      fun k' hk => pyGet_setVal_ne o.dict key k' v hk⟩

/-- Claim C6, witness: on an instance with fields `a` and `b`, assigning to
`c` raises the identifying `TypeError` and changes nothing, while assigning
to `a` succeeds and updates the value. -/
theorem c6_witness :
    dataTypeSetattr (⟨"Sub", ["a", "b"], [("a", (1 : Nat)), ("b", 2)]⟩ : DataType Nat) "c" 9 =
      (.error (dtErrMsg "Sub" "c"), ⟨"Sub", ["a", "b"], [("a", 1), ("b", 2)]⟩) ∧
    dataTypeSetattr (⟨"Sub", ["a", "b"], [("a", (1 : Nat)), ("b", 2)]⟩ : DataType Nat) "a" 5 =
      (.ok (), ⟨"Sub", ["a", "b"], [("a", 5), ("b", 2)]⟩) :=
  ⟨(c6_theorem Nat ⟨"Sub", ["a", "b"], [("a", 1), ("b", 2)]⟩ "c" 9).1 (by decide),
   ((c6_theorem Nat ⟨"Sub", ["a", "b"], [("a", 1), ("b", 2)]⟩ "a" 5).2 1 (by decide)).1⟩

/-- Claim C1, counterexample.  Constructing a bare `DataType` with the
mapping `{a: 1, b: 2}` does NOT succeed: `__init__` forwards to
`__setattr__`, whose existence check fails for the fresh name `a` (it is
not an attribute of the class), so construction raises `TypeError`
immediately and no attribute is ever set. -/
theorem c1_counterexample :
    dataTypeInit "DataType" dataTypeBaseAttrs [("a", (1 : Nat)), ("b", 2)] =
      (.error (dtErrMsg "DataType" "a"), ⟨"DataType", dataTypeBaseAttrs, []⟩) := by
  rfl

/-- Lemma: when every keyword name is findable on the class, the `__init__`
loop succeeds and folds the assignments into the instance dict. -/
theorem dataTypeInitGo_ok {α : Type} :
    ∀ (kwargs : List (String × α)) (o : DataType α),
      (∀ kv ∈ kwargs, kv.1 ∈ o.classAttrs) →
      dataTypeInitGo o kwargs =
        (.ok (), { o with dict := kwargs.foldl (fun d kv => setVal d kv.1 kv.2) o.dict }) := by
  intro kwargs
  induction kwargs with
  | nil => intro o _; simp [dataTypeInitGo]
  | cons kv rest ih =>
    intro o h
    obtain ⟨k, v⟩ := kv
    have hk : k ∈ o.classAttrs := h (k, v) (List.mem_cons_self _ _)
    have hh : hasattrB o k = true := by simp [hasattrB, hk]
    have hrest : ∀ kv ∈ rest, kv.1 ∈ (⟨o.className, o.classAttrs, setVal o.dict k v⟩ :
        DataType α).classAttrs := fun kv hkv => h kv (List.mem_cons_of_mem _ hkv)
    simp only [dataTypeInitGo, dataTypeSetattr, hh, if_true, List.foldl_cons]
    exact ih _ hrest

/-- Claim C1, amended: construction sets each name/value pair as an
attribute of the new instance only when every passed name is already
findable on the class (for example, declared as a class-level default);
the legal attribute set is the class-declared one, not the set of names
passed, and the instance dict afterwards holds exactly the names passed.
Any name outside the class's attribute set makes construction raise a
`TypeError` instead (see the counterexample). -/
theorem c1_theorem (α : Type) (cn : String) (ca : List String)
    (kwargs : List (String × α))
    (hall : ∀ kv ∈ kwargs, kv.1 ∈ ca)
    (hnd : (kwargs.map Prod.fst).Nodup) :
    ∃ o : DataType α,
      dataTypeInit cn ca kwargs = (.ok (), o) ∧
      o.className = cn ∧ o.classAttrs = ca ∧
      (∀ kv ∈ kwargs, pyGet o.dict kv.1 = some kv.2) ∧
      (∀ k, (pyGet o.dict k).isSome = true → k ∈ kwargs.map Prod.fst) := by
  refine ⟨_, dataTypeInitGo_ok kwargs ⟨cn, ca, []⟩ hall, rfl, rfl, ?_, ?_⟩
  · intro kv hkv
    exact pyGet_foldl_setVal_mem kwargs [] kv.1 kv.2 hkv hnd
  · intro k hk
    by_contra hmem
    rw [pyGet_foldl_setVal_not_mem kwargs [] k hmem] at hk
    simp [pyGet] at hk

/-- Claim C1, witness: a subclass declaring class-level attributes `a`, `b`
is constructible with `{a: 1, b: 2}` and both values are stored. -/
theorem c1_witness :
    ∃ o : DataType Nat,
      dataTypeInit "Sub" ["a", "b"] [("a", 1), ("b", 2)] = (.ok (), o) ∧
      o.className = "Sub" ∧ o.classAttrs = ["a", "b"] ∧
      (∀ kv ∈ [("a", (1 : Nat)), ("b", 2)], pyGet o.dict kv.1 = some kv.2) ∧
      (∀ k, (pyGet o.dict k).isSome = true →
        k ∈ ([("a", (1 : Nat)), ("b", 2)].map Prod.fst)) :=
  c1_theorem Nat "Sub" ["a", "b"] [("a", 1), ("b", 2)] (by decide) (by decide)

/-! ### Claim C10: `get_chunks` -/

/-- Lemma: the concatenation of the chunks produced by the generator loop is
the pending chunk followed by the remaining input. -/
theorem getChunksGo_flatten {α : Type u} (n : Nat) :
    ∀ (xs result : List α) (index : Nat),
      (getChunksGo n result xs index).flatten = result ++ xs := by
  intro xs
  induction xs with
  | nil =>
    intro result index
    by_cases h : result.isEmpty
    · simp [getChunksGo, h, List.isEmpty_iff.mp h]
    · simp [getChunksGo, h]
  | cons x xs ih =>
    intro result index
    by_cases h : index + 1 = n
    · simp [getChunksGo, h, ih]
    · simp [getChunksGo, h, ih]

/-- Lemma: every chunk the loop produces is non-empty and no longer than
`n`, provided the pending chunk has length `index < n`. -/
theorem getChunksGo_mem {α : Type u} (n : Nat) :
    ∀ (xs result : List α) (index : Nat) (c : List α),
      index = result.length → index < n →
      c ∈ getChunksGo n result xs index → c ≠ [] ∧ c.length ≤ n := by
  intro xs
  induction xs with
  | nil =>
    intro result index c hlen hlt hc
    simp only [getChunksGo] at hc
    by_cases h : result.isEmpty
    · simp [h] at hc
    · rw [if_neg h] at hc
      have hc' : c = result := by simpa using hc
      subst hc'
      exact ⟨fun he => h (by rw [he]; rfl), by omega⟩
  | cons x xs ih =>
    intro result index c hlen hlt hc
    simp only [getChunksGo] at hc
    by_cases h : index + 1 = n
    · rw [if_pos h] at hc
      rcases List.mem_cons.mp hc with rfl | hc
      · refine ⟨fun he => ?_, by simp [← hlen, h]⟩
        have : (result ++ [x]).length = 0 := by rw [he]; rfl
        simp at this
      · exact ih [] 0 c rfl (by omega) hc
    · rw [if_neg h] at hc
      exact ih (result ++ [x]) (index + 1) c (by simp [hlen]) (by omega) hc

/-- Lemma: every chunk except possibly the last has length exactly `n`. -/
theorem getChunksGo_full {α : Type u} (n : Nat) :
    ∀ (xs result : List α) (index i : Nat),
      index = result.length → index < n →
      i + 1 < (getChunksGo n result xs index).length →
      ((getChunksGo n result xs index).getD i []).length = n := by
  intro xs
  induction xs with
  | nil =>
    intro result index i _ _ h
    simp only [getChunksGo] at h
    by_cases he : result.isEmpty
    · rw [if_pos he] at h
      simp at h
    · rw [if_neg he] at h
      simp at h
  | cons x xs ih =>
    intro result index i hlen hlt h
    simp only [getChunksGo] at h ⊢
    by_cases hn : index + 1 = n
    · rw [if_pos hn] at h ⊢
      rcases i with _ | j
      · simp [← hlen, hn]
      · simp only [List.getD_cons_succ]
        simp only [List.length_cons] at h
        exact ih [] 0 j rfl (by omega) (by omega)
    · rw [if_neg hn] at h ⊢
      exact ih (result ++ [x]) (index + 1) i (by simp [hlen]) (by omega) h

/-- Claim C10: for every input list and chunk size `n ≥ 1`, concatenating
the chunks of `get_chunks` restores the input in order, every chunk is
non-empty of length at most `n`, and every chunk except possibly the last
has length exactly `n`. -/
theorem c10_theorem {α : Type u} (xs : List α) (n : Nat) (h : 1 ≤ n) :
    (get_chunks xs n).flatten = xs ∧
    (∀ c ∈ get_chunks xs n, c ≠ [] ∧ c.length ≤ n) ∧
    (∀ i, i + 1 < (get_chunks xs n).length →
      ((get_chunks xs n).getD i []).length = n) := by
  refine ⟨?_, ?_, ?_⟩
  · simpa using getChunksGo_flatten n xs [] 0
  · intro c hc
    exact getChunksGo_mem n xs [] 0 c rfl (by omega) hc
  · intro i hi
    exact getChunksGo_full n xs [] 0 i rfl (by omega) hi

/-- Claim C10, witness: chunking five items with chunk size two. -/
theorem c10_witness :
    (get_chunks [1, 2, 3, 4, 5] 2).flatten = [1, 2, 3, 4, 5] ∧
    (∀ c ∈ get_chunks [1, 2, 3, 4, 5] 2, c ≠ [] ∧ c.length ≤ 2) ∧
    (∀ i, i + 1 < (get_chunks [1, 2, 3, 4, 5] 2).length →
      ((get_chunks [1, 2, 3, 4, 5] 2).getD i []).length = 2) :=
  c10_theorem [1, 2, 3, 4, 5] 2 (by decide)

/-! ### Claims C2, C9, C8, C3: the config-store cache and lookups -/

/-- A filesystem with one file `p` whose parse yields an empty mapping. -/
def fsEmpty : String → Option (List (List Char)) :=
  fun p => if p = "p" then some [] else none

/-- A filesystem with one file `p` holding the single line `a=1`. -/
def fsOne : String → Option (List (List Char)) :=
  fun p => if p = "p" then some [['a', '=', '1']] else none

/-- A mapping with a truthy value under `a` and a falsy one under `b`. -/
def mCached : ConfigReader.ConfigMapping :=
  [(['a'], ConfigValue.str ['1']), (['b'], ConfigValue.str [])]

/-- A state whose cache already holds `mCached` for path `p`. -/
def stCached : ConfigReader.CRState := ⟨[("p", mCached)], 0⟩

/-- Claim C2, counterexample.  When the first successful `get_config` call
parses an empty mapping, the cached empty dict is falsy, so the second call
for the same path opens and parses the file AGAIN (the read counter goes
from 1 to 2), contradicting the claim that after a first successful call no
further file I/O happens — including for an empty mapping. -/
theorem c2_counterexample :
    ConfigReader.get_config fsEmpty [] [] "d" (some "p") ⟨[], 0⟩ =
      (.ok [], ⟨[("p", [])], 1⟩) ∧
    ConfigReader.get_config fsEmpty [] [] "d" (some "p") ⟨[("p", [])], 1⟩ =
      (.ok [], ⟨[("p", [])], 2⟩) :=
  ⟨rfl, rfl⟩

/-- Claim C2, amended: after a first successful `get_config` call for a path
whose parse produced a NON-empty mapping, a subsequent call with the same
arguments performs no file I/O and changes nothing: it returns the cached
mapping and the identical state (in particular the read count is unchanged).
When the parse produced an empty mapping, the falsy cache check treats it as
absent and the file is re-read (see the counterexample). -/
theorem c2_theorem (fs : String → Option (List (List Char)))
    (lf igf : List (List Char)) (dflt : String) (cp : Option String)
    (st : ConfigReader.CRState) (m : ConfigReader.ConfigMapping)
    (st' : ConfigReader.CRState)
    (h : ConfigReader.get_config fs lf igf dflt cp st = (.ok m, st'))
    (hm : m ≠ []) :
    ConfigReader.get_config fs lf igf dflt cp st' = (.ok m, st') := by
  simp only [ConfigReader.get_config] at h ⊢
  by_cases hc : (pyGet st.cache (ConfigReader.resolvePath cp dflt)).getD [] ≠ []
  · rw [if_pos hc] at h
    have h1 : (pyGet st.cache (ConfigReader.resolvePath cp dflt)).getD [] = m := by
      simpa using congrArg Prod.fst h
    have h2 : st = st' := congrArg Prod.snd h
    subst h2
    rw [if_pos hc, h1]
  · rw [if_neg hc] at h
    cases hfs : fs (ConfigReader.resolvePath cp dflt) with
    | none => rw [hfs] at h; simp at h
    | some lines =>
      rw [hfs] at h
      have h1 : ConfigReader.buildMapping lf igf lines = m := by
        simpa using congrArg Prod.fst h
      have h2 : (⟨setVal st.cache (ConfigReader.resolvePath cp dflt)
          (ConfigReader.buildMapping lf igf lines), st.reads + 1⟩ :
          ConfigReader.CRState) = st' := congrArg Prod.snd h
      subst h2
      have hp : pyGet (setVal st.cache (ConfigReader.resolvePath cp dflt)
          (ConfigReader.buildMapping lf igf lines)) (ConfigReader.resolvePath cp dflt) =
          some (ConfigReader.buildMapping lf igf lines) :=
        pyGet_setVal_self _ _ _
      rw [hp]
      simp only [Option.getD_some]
      rw [if_pos (by rw [h1]; exact hm), h1]

/-- Claim C2, witness: a second call after a successful parse of a
non-empty mapping returns the cached mapping with the state unchanged. -/
theorem c2_witness :
    ConfigReader.get_config fsOne [] [] "d" (some "p")
        ⟨[("p", [(['a'], ConfigValue.str ['1'])])], 1⟩ =
      (.ok [(['a'], ConfigValue.str ['1'])],
        ⟨[("p", [(['a'], ConfigValue.str ['1'])])], 1⟩) :=
  c2_theorem fsOne [] [] "d" (some "p") ⟨[], 0⟩
    [(['a'], ConfigValue.str ['1'])]
    ⟨[("p", [(['a'], ConfigValue.str ['1'])])], 1⟩ (by rfl) (by simp)

/-- Claim C9: when the cache has no usable entry for the resolved path and
opening the file fails, `get_config` raises and returns the state
completely unchanged — in particular no cache entry appears for that path;
and whenever `get_config` succeeds, the entry served for the path is either
the previously cached one (state untouched) or the complete parse of the
whole file, inserted only after that parse. -/
theorem c9_theorem (fs : String → Option (List (List Char)))
    (lf igf : List (List Char)) (dflt : String) (cp : Option String)
    (st : ConfigReader.CRState) :
    (((pyGet st.cache (ConfigReader.resolvePath cp dflt)).getD [] = []) →
      fs (ConfigReader.resolvePath cp dflt) = none →
      ConfigReader.get_config fs lf igf dflt cp st = (.error (), st)) ∧
    (∀ m st', ConfigReader.get_config fs lf igf dflt cp st = (.ok m, st') →
      pyGet st'.cache (ConfigReader.resolvePath cp dflt) = some m ∧
      (st' = st ∨ ∃ lines, fs (ConfigReader.resolvePath cp dflt) = some lines ∧
        m = ConfigReader.buildMapping lf igf lines ∧
        st'.cache = setVal st.cache (ConfigReader.resolvePath cp dflt) m)) := by
  constructor
  · intro h1 h2
    simp only [ConfigReader.get_config]
    rw [if_neg (by simp [h1]), h2]
  · intro m st' h
    simp only [ConfigReader.get_config] at h
    by_cases hc : (pyGet st.cache (ConfigReader.resolvePath cp dflt)).getD [] ≠ []
    · rw [if_pos hc] at h
      have h1 : (pyGet st.cache (ConfigReader.resolvePath cp dflt)).getD [] = m := by
        simpa using congrArg Prod.fst h
      have h2 : st = st' := congrArg Prod.snd h
      subst h2
      refine ⟨?_, Or.inl rfl⟩
      cases hg : pyGet st.cache (ConfigReader.resolvePath cp dflt) with
      | none => rw [hg] at hc; simp at hc
      | some a =>
        rw [hg] at h1
        simp only [Option.getD_some] at h1
        rw [h1]
    · rw [if_neg hc] at h
      cases hfs : fs (ConfigReader.resolvePath cp dflt) with
      | none => rw [hfs] at h; simp at h
      | some lines =>
        rw [hfs] at h
        have h1 : ConfigReader.buildMapping lf igf lines = m := by
          simpa using congrArg Prod.fst h
        have h2 : (⟨setVal st.cache (ConfigReader.resolvePath cp dflt)
            (ConfigReader.buildMapping lf igf lines), st.reads + 1⟩ :
            ConfigReader.CRState) = st' := congrArg Prod.snd h
        subst h2
        rw [h1]
        exact ⟨pyGet_setVal_self _ _ _, Or.inr ⟨lines, rfl, h1.symm, rfl⟩⟩

/-- Claim C9, witness: a failing open leaves the state untouched, and a
successful parse inserts exactly the full parse of the file. -/
theorem c9_witness :
    ConfigReader.get_config fsEmpty [] [] "d" (some "x") ⟨[], 0⟩ =
      (.error (), ⟨[], 0⟩) ∧
    (pyGet (⟨[("p", [(['a'], ConfigValue.str ['1'])])], 1⟩ :
        ConfigReader.CRState).cache (ConfigReader.resolvePath (some "p") "d") =
      some [(['a'], ConfigValue.str ['1'])] ∧
    ((⟨[("p", [(['a'], ConfigValue.str ['1'])])], 1⟩ : ConfigReader.CRState) = ⟨[], 0⟩ ∨
      ∃ lines, fsOne (ConfigReader.resolvePath (some "p") "d") = some lines ∧
        [(['a'], ConfigValue.str ['1'])] = ConfigReader.buildMapping [] [] lines ∧
        (⟨[("p", [(['a'], ConfigValue.str ['1'])])], 1⟩ :
            ConfigReader.CRState).cache =
          setVal (⟨[], 0⟩ : ConfigReader.CRState).cache
            (ConfigReader.resolvePath (some "p") "d")
            [(['a'], ConfigValue.str ['1'])])) :=
  ⟨(c9_theorem fsEmpty [] [] "d" (some "x") ⟨[], 0⟩).1 rfl rfl,
   (c9_theorem fsOne [] [] "d" (some "p") ⟨[], 0⟩).2
     [(['a'], ConfigValue.str ['1'])]
     ⟨[("p", [(['a'], ConfigValue.str ['1'])])], 1⟩ rfl⟩

/-- Claim C8: the only failure `get_config` surfaces is the underlying
file-open failure — its result is an error exactly when the cache has no
usable entry and the filesystem fails for the resolved path — and line
parsing is total (a total Lean function) with malformed lines degrading to
the blank marker, which contributes nothing to the built mapping. -/
theorem c8_theorem (fs : String → Option (List (List Char)))
    (lf igf : List (List Char)) (dflt : String) (cp : Option String)
    (st : ConfigReader.CRState) :
    ((ConfigReader.get_config fs lf igf dflt cp st).1 = .error () ↔
      ((pyGet st.cache (ConfigReader.resolvePath cp dflt)).getD [] = [] ∧
        fs (ConfigReader.resolvePath cp dflt) = none)) ∧
    (∀ line pre post, ConfigReader.parse_line lf igf line = none →
      ConfigReader.buildMapping lf igf (pre ++ line :: post) =
        ConfigReader.buildMapping lf igf (pre ++ post)) := by
  constructor
  · simp only [ConfigReader.get_config]
    by_cases hc : (pyGet st.cache (ConfigReader.resolvePath cp dflt)).getD [] ≠ []
    · rw [if_pos hc]
      simp [hc]
    · rw [if_neg hc]
      cases hfs : fs (ConfigReader.resolvePath cp dflt) with
      | none => simpa [hfs] using not_not.mp hc
      | some lines => simp [hfs]
  · intro line pre post h
    exact buildMapping_skip lf igf line h pre post

/-- Claim C8, witness: a line with no `=` parses to the blank marker and
contributes nothing; an error surfaces exactly on open failure. -/
theorem c8_witness :
    ((ConfigReader.get_config fsEmpty [] [] "d" (some "x") ⟨[], 0⟩).1 = .error () ↔
      ((pyGet (⟨[], 0⟩ : ConfigReader.CRState).cache
          (ConfigReader.resolvePath (some "x") "d")).getD [] = [] ∧
        fsEmpty (ConfigReader.resolvePath (some "x") "d") = none)) ∧
    ConfigReader.buildMapping [] [] ([['a', '=', '1']] ++ ['g'] :: []) =
      ConfigReader.buildMapping [] [] ([['a', '=', '1']] ++ []) :=
  ⟨(c8_theorem fsEmpty [] [] "d" (some "x") ⟨[], 0⟩).1,
   (c8_theorem fsEmpty [] [] "d" (some "x") ⟨[], 0⟩).2 ['g'] [['a', '=', '1']] [] rfl⟩

/-- Claim C3: when `get_config` succeeds with mapping `m`, `get` returns the
fallback exactly when the key is absent from `m` or its stored value is
falsy (empty string or empty list), and otherwise returns the stored value
unmodified. -/
theorem c3_theorem (fs : String → Option (List (List Char)))
    (lf igf : List (List Char)) (dflt : String) (key : List Char)
    (fb : Option ConfigValue) (cp : Option String)
    (st : ConfigReader.CRState) (m : ConfigReader.ConfigMapping)
    (st' : ConfigReader.CRState)
    (h : ConfigReader.get_config fs lf igf dflt cp st = (.ok m, st')) :
    (pyGet m key = none →
      ConfigReader.get fs lf igf dflt key fb cp st = (.ok fb, st')) ∧
    (∀ v, pyGet m key = some v → truthy v = false →
      ConfigReader.get fs lf igf dflt key fb cp st = (.ok fb, st')) ∧
    (∀ v, pyGet m key = some v → truthy v = true →
      ConfigReader.get fs lf igf dflt key fb cp st = (.ok (some v), st')) := by
  refine ⟨fun hk => ?_, fun v hk hv => ?_, fun v hk hv => ?_⟩ <;>
    simp [ConfigReader.get, h, hk]
  · simp [hv]
  · simp [hv]

/-- Claim C3, witness: with a cached mapping holding a truthy `a` and a
falsy `b`, `get` returns the stored value for `a` and the fallback for the
falsy `b` and for the absent `c`. -/
theorem c3_witness :
    (pyGet mCached ['c'] = none →
      ConfigReader.get fsOne [] [] "d" ['c'] (some (ConfigValue.str ['f']))
        (some "p") stCached = (.ok (some (ConfigValue.str ['f'])), stCached)) ∧
    (∀ v, pyGet mCached ['b'] = some v → truthy v = false →
      ConfigReader.get fsOne [] [] "d" ['b'] (some (ConfigValue.str ['f']))
        (some "p") stCached = (.ok (some (ConfigValue.str ['f'])), stCached)) ∧
    (∀ v, pyGet mCached ['a'] = some v → truthy v = true →
      ConfigReader.get fsOne [] [] "d" ['a'] (some (ConfigValue.str ['f']))
        (some "p") stCached = (.ok (some v), stCached)) :=
  ⟨(c3_theorem fsOne [] [] "d" ['c'] (some (ConfigValue.str ['f'])) (some "p")
      stCached mCached stCached rfl).1,
   (c3_theorem fsOne [] [] "d" ['b'] (some (ConfigValue.str ['f'])) (some "p")
      stCached mCached stCached rfl).2.1,
   (c3_theorem fsOne [] [] "d" ['a'] (some (ConfigValue.str ['f'])) (some "p")
      stCached mCached stCached rfl).2.2⟩

/-! ### Claim C7: comment stripping -/

/-- Lemma: a Python split always produces at least one part. -/
theorem pySplit_ne_nil (sep : Char) : ∀ s : List Char, pySplit sep s ≠ [] := by
  intro s
  induction s with
  | nil => simp [pySplit]
  | cons c rest _ =>
    by_cases h : c = sep
    · simp [pySplit, h]
    · simp only [pySplit, if_neg h]
      cases hps : pySplit sep rest with
      | nil => simp
      | cons p ps => simp

/-- Lemma: the first part of a Python single-character split is the prefix
of the string before the first occurrence of the separator. -/
theorem pySplit_headD (sep : Char) : ∀ s : List Char,
    (pySplit sep s).headD [] = s.takeWhile (fun c => decide (c ≠ sep)) := by
  intro s
  induction s with
  | nil => rfl
  | cons c rest ih =>
    by_cases h : c = sep
    · simp [pySplit, h]
    · simp only [pySplit, if_neg h]
      cases hps : pySplit sep rest with
      | nil => exact absurd hps (pySplit_ne_nil sep rest)
      | cons p ps =>
        rw [hps] at ih
        simp only [List.headD_cons] at ih
        simp [List.takeWhile_cons, h, ih]

/-- Claim C7: the comment-stripping loop truncates the whitespace-stripped
line at the first occurrence of either declared comment-prefix character
(`#` or `;`), discarding everything from the earliest prefix onward — the
predicate is on raw characters, with no quote-awareness — and `_parse_line`
applies exactly this truncation to every key line (any line that passes the
indentation and `=`-presence checks). -/
theorem c7_theorem (s : List Char) (lf igf : List (List Char)) (line : List Char) :
    ConfigReader.commentStrip s =
      s.takeWhile (fun c => decide (c ∉ ConfigReader.comment_prefixes)) ∧
    (line.head? ≠ some ' ' → '=' ∈ line →
      ConfigReader.parse_line lf igf line =
        ConfigReader.parseKeyVal lf igf (ConfigReader.commentStrip (pyStrip line))) := by
  constructor
  · have hcs : ConfigReader.commentStrip s =
        (pySplit ';' ((pySplit '#' s).headD [])).headD [] := rfl
    rw [hcs, pySplit_headD, pySplit_headD, List.takeWhile_takeWhile]
    congr 1
    funext c
    by_cases h1 : c = '#' <;> by_cases h2 : c = ';' <;>
      simp [ConfigReader.comment_prefixes, h1, h2]
  · intro h1 h2
    simp only [ConfigReader.parse_line, if_neg h1, if_neg (not_not_intro h2)]

/-- Claim C7, witness: a `;` inside a double-quoted value still truncates
the line. -/
theorem c7_witness :
    ConfigReader.commentStrip ['a', '=', '1'] =
      List.takeWhile (fun c => decide (c ∉ ConfigReader.comment_prefixes))
        ['a', '=', '1'] ∧
    ConfigReader.parse_line [] []
        ['a', '=', dquoteCh, '1', ';', '2', dquoteCh] =
      ConfigReader.parseKeyVal [] []
        (ConfigReader.commentStrip
          (pyStrip ['a', '=', dquoteCh, '1', ';', '2', dquoteCh])) :=
  ⟨( c7_theorem ['a', '=', '1'] [] []
      ['a', '=', dquoteCh, '1', ';', '2', dquoteCh]).1,
   ( c7_theorem ['a', '=', '1'] [] []
      ['a', '=', dquoteCh, '1', ';', '2', dquoteCh]).2 (by decide) (by decide)⟩

/-! ### Claim C4: quote stripping -/

/-- Unfolding equation: joining a two-or-more part list. -/
theorem pyJoin_cons₂ (sep : Char) (p q : List Char) (qs : List (List Char)) :
    pyJoin sep (p :: q :: qs) = p ++ sep :: pyJoin sep (q :: qs) := rfl

/-- Unfolding equation: splitting at a leading separator. -/
theorem pySplit_cons_self (sep : Char) (rest : List Char) :
    pySplit sep (sep :: rest) = [] :: pySplit sep rest := by
  simp [pySplit]

/-- Unfolding equation: splitting past a non-separator head character. -/
theorem pySplit_cons_ne (sep c : Char) (rest : List Char) (h : ¬ c = sep)
    (p : List Char) (ps : List (List Char)) (hps : pySplit sep rest = p :: ps) :
    pySplit sep (c :: rest) = (c :: p) :: ps := by
  simp [pySplit, h, hps]

/-- Lemma: joining a split with the same separator restores the string. -/
theorem pyJoin_pySplit (sep : Char) : ∀ s : List Char,
    pyJoin sep (pySplit sep s) = s := by
  intro s
  induction s with
  | nil => rfl
  | cons c rest ih =>
    by_cases h : c = sep
    · subst h
      rw [pySplit_cons_self]
      cases hps : pySplit c rest with
      | nil => exact absurd hps (pySplit_ne_nil c rest)
      | cons p ps =>
        rw [hps] at ih
        rw [pyJoin_cons₂]
        simp [ih]
    · cases hps : pySplit sep rest with
      | nil => exact absurd hps (pySplit_ne_nil sep rest)
      | cons p ps =>
        rw [pySplit_cons_ne sep c rest h p ps hps]
        rw [hps] at ih
        cases ps with
        | nil =>
          simp only [pyJoin] at ih ⊢
          rw [ih]
        | cons q qs =>
          rw [pyJoin_cons₂] at ih
          rw [pyJoin_cons₂, List.cons_append, ih]

/-- Lemma: splitting on a character that does not occur yields one part. -/
theorem pySplit_not_mem (sep : Char) : ∀ s : List Char, sep ∉ s →
    pySplit sep s = [s] := by
  intro s
  induction s with
  | nil => intro _; rfl
  | cons c rest ih =>
    intro h
    have hc : ¬ c = sep := by rintro rfl; exact h (List.mem_cons_self _ _)
    have h2 : sep ∉ rest := fun hh => h (List.mem_cons_of_mem c hh)
    rw [pySplit_cons_ne sep c rest hc rest [] (ih h2)]

/-- Lemma: splitting `k ++ sep :: v` where `sep` does not occur in `k`
peels off `k` as the first part. -/
theorem pySplit_append_cons (sep : Char) : ∀ (k v : List Char), sep ∉ k →
    pySplit sep (k ++ sep :: v) = k :: pySplit sep v := by
  intro k
  induction k with
  | nil =>
    intro v _
    simpa using pySplit_cons_self sep v
  | cons c k' ih =>
    intro v h
    have hc : ¬ c = sep := by rintro rfl; exact h (List.mem_cons_self _ _)
    have h2 : sep ∉ k' := fun hh => h (List.mem_cons_of_mem c hh)
    rw [List.cons_append, pySplit_cons_ne sep c (k' ++ sep :: v) hc k'
      (pySplit sep v) (ih v h2)]

/-- Lemma: `dropWhile` is the identity when no character satisfies `p`. -/
theorem dropWhile_eq_self_of (p : Char → Bool) (s : List Char)
    (h : ∀ c ∈ s, p c = false) : s.dropWhile p = s := by
  cases s with
  | nil => rfl
  | cons c rest => simp [List.dropWhile_cons, h c (List.mem_cons_self c rest)]

/-- Lemma: `pyDropRightWhile` is the identity when no character satisfies
`p`. -/
theorem pyDropRightWhile_eq_self_of (p : Char → Bool) : ∀ s : List Char,
    (∀ c ∈ s, p c = false) → pyDropRightWhile p s = s := by
  intro s
  induction s with
  | nil => intro _; rfl
  | cons c rest ih =>
    intro h
    have h2 := ih (fun d hd => h d (List.mem_cons_of_mem c hd))
    have hc := h c (List.mem_cons_self c rest)
    simp only [pyDropRightWhile, h2]
    cases rest with
    | nil => simp [hc]
    | cons d ds => rfl

/-- Lemma: Python strip is the identity when no character satisfies `p`. -/
theorem pyStripWith_eq_self (p : Char → Bool) (s : List Char)
    (h : ∀ c ∈ s, p c = false) : pyStripWith p s = s := by
  unfold pyStripWith
  rw [dropWhile_eq_self_of p s h, pyDropRightWhile_eq_self_of p s h]

/-- Lemma: `pyStrip` is the identity on strings without whitespace. -/
theorem pyStrip_eq_self (s : List Char) (h : ∀ c ∈ s, isPySpace c = false) :
    pyStrip s = s :=
  pyStripWith_eq_self isPySpace s h

/-- Lemma: the head surviving `dropWhile` does not satisfy `p`. -/
theorem head?_dropWhile_false (p : Char → Bool) : ∀ (s : List Char) (x : Char),
    (s.dropWhile p).head? = some x → p x = false := by
  intro s
  induction s with
  | nil => intro x h; cases h
  | cons c rest ih =>
    intro x h
    by_cases hc : p c
    · rw [List.dropWhile_cons_of_pos hc] at h
      exact ih x h
    · rw [List.dropWhile_cons_of_neg hc] at h
      simp only [List.head?_cons, Option.some.injEq] at h
      subst h
      exact Bool.eq_false_iff.mpr hc

/-- Lemma: `pyDropRightWhile` only ever removes a suffix, so a surviving
head was the original head. -/
theorem head?_pyDropRightWhile (p : Char → Bool) : ∀ (s : List Char) (x : Char),
    (pyDropRightWhile p s).head? = some x → s.head? = some x := by
  intro s
  induction s with
  | nil => intro x h; cases h
  | cons c rest _ =>
    intro x h
    cases hr : pyDropRightWhile p rest with
    | nil =>
      simp only [pyDropRightWhile, hr] at h
      by_cases hc : p c
      · simp [hc] at h
      · simp only [if_neg hc, List.head?_cons, Option.some.injEq] at h
        subst h; rfl
    | cons y ys =>
      simp only [pyDropRightWhile, hr] at h
      simp only [List.head?_cons, Option.some.injEq] at h
      subst h; rfl

/-- Lemma: the last character surviving `pyDropRightWhile` does not satisfy
`p`. -/
theorem getLast?_pyDropRightWhile (p : Char → Bool) : ∀ (s : List Char) (x : Char),
    (pyDropRightWhile p s).getLast? = some x → p x = false := by
  intro s
  induction s with
  | nil => intro x h; cases h
  | cons c rest ih =>
    intro x h
    cases hr : pyDropRightWhile p rest with
    | nil =>
      simp only [pyDropRightWhile, hr] at h
      by_cases hc : p c
      · simp [hc] at h
      · simp only [if_neg hc, List.getLast?_singleton, Option.some.injEq] at h
        subst h
        exact Bool.eq_false_iff.mpr hc
    | cons y ys =>
      simp only [pyDropRightWhile, hr] at h
      rw [List.getLast?_cons_cons] at h
      rw [← hr] at h
      exact ih x h

/-- Lemma: after stripping all occurrences of `c` from both ends, neither
the first nor the last remaining character is `c` — every layer of
surrounding `c`-quotes is gone. -/
theorem pyStripChars_no_boundary (c : Char) (s : List Char) :
    (pyStripChars [c] s).head? ≠ some c ∧ (pyStripChars [c] s).getLast? ≠ some c := by
  constructor
  · intro h
    have h2 := head?_pyDropRightWhile (fun d => decide (d ∈ [c])) (s.dropWhile _) c h
    have h3 := head?_dropWhile_false (fun d => decide (d ∈ [c])) s c h2
    simp at h3
  · intro h
    have h3 := getLast?_pyDropRightWhile (fun d => decide (d ∈ [c])) (s.dropWhile _) c h
    simp at h3

/-- Claim C4, counterexample.  A value whose text is `""v""` does NOT yield
`"v"`: Python `str.strip('"')` removes ALL leading and trailing
double-quote characters, not a single layer, so `_parse_line` yields the
bare `v`. -/
theorem c4_counterexample :
    ConfigReader.parse_line [] []
        ['k', '=', dquoteCh, dquoteCh, 'v', dquoteCh, dquoteCh] =
      some (['k'], ConfigValue.str ['v']) ∧
    some (['k'], ConfigValue.str ['v']) ≠
      some (['k'], ConfigValue.str [dquoteCh, 'v', dquoteCh]) :=
  ⟨rfl, by decide⟩

/-- Claim C4, amended: for a non-list, non-ignored key line with a
non-empty value, parsing strips ALL surrounding double-quote characters
and then all surrounding single-quote characters from the value (entire
boundary runs, not one layer per quote style): afterwards neither end of a
stripped run can still carry the stripped quote character, so e.g. a value
whose text is `""v""` yields `v`. -/
theorem c4_theorem (lf igf : List (List Char)) (k v : List Char)
    (hk : k ≠ [])
    (hkc : ∀ c ∈ k, isPySpace c = false ∧ c ≠ '=' ∧ c ∉ ConfigReader.comment_prefixes)
    (hv : v ≠ [])
    (hvc : ∀ c ∈ v, isPySpace c = false ∧ c ∉ ConfigReader.comment_prefixes)
    (hig : k ∉ igf) (hlf : k ∉ lf) :
    ConfigReader.parse_line lf igf (k ++ '=' :: v) =
      some (k, ConfigValue.str (pyStripChars [squoteCh] (pyStripChars [dquoteCh] v))) ∧
    ∀ (c : Char) (s : List Char),
      (pyStripChars [c] s).head? ≠ some c ∧ (pyStripChars [c] s).getLast? ≠ some c := by
  have hkeq : ∀ c ∈ k, isPySpace c = false := fun c hc => (hkc c hc).1
  have hveq : ∀ c ∈ v, isPySpace c = false := fun c hc => (hvc c hc).1
  have hne : '=' ∉ k := fun hm => (hkc '=' hm).2.1 rfl
  have hline_space : ∀ c ∈ k ++ '=' :: v, isPySpace c = false := by
    intro c hc
    rcases List.mem_append.mp hc with h1 | h2
    · exact hkeq c h1
    · rcases List.mem_cons.mp h2 with rfl | h3
      · decide
      · exact hveq c h3
  have hhash : '#' ∉ k ++ '=' :: v := by
    intro hc
    rcases List.mem_append.mp hc with h1 | h2
    · exact (hkc '#' h1).2.2 (by decide)
    · rcases List.mem_cons.mp h2 with he | h3
      · exact absurd he (by decide)
      · exact (hvc '#' h3).2 (by decide)
  have hsemi : ';' ∉ k ++ '=' :: v := by
    intro hc
    rcases List.mem_append.mp hc with h1 | h2
    · exact (hkc ';' h1).2.2 (by decide)
    · rcases List.mem_cons.mp h2 with he | h3
      · exact absurd he (by decide)
      · exact (hvc ';' h3).2 (by decide)
  have hstrip : pyStrip (k ++ '=' :: v) = k ++ '=' :: v :=
    pyStrip_eq_self _ hline_space
  have hcomm : ConfigReader.commentStrip (k ++ '=' :: v) = k ++ '=' :: v := by
    show (pySplit ';' ((pySplit '#' (k ++ '=' :: v)).headD [])).headD [] = _
    rw [pySplit_not_mem '#' _ hhash]
    simp only [List.headD_cons]
    rw [pySplit_not_mem ';' _ hsemi]
    rfl
  have hhead : ¬ (k ++ '=' :: v).head? = some ' ' := by
    cases k with
    | nil => exact absurd rfl hk
    | cons c k' =>
      simp only [List.cons_append, List.head?_cons, Option.some.injEq]
      intro he
      have hsp := hkeq c (List.mem_cons_self c k')
      rw [he] at hsp
      simp [isPySpace] at hsp
  have hmem : '=' ∈ k ++ '=' :: v :=
    List.mem_append.mpr (Or.inr (List.mem_cons_self _ _))
  constructor
  · simp only [ConfigReader.parse_line, if_neg hhead, if_neg (not_not_intro hmem)]
    rw [hstrip, hcomm]
    simp only [ConfigReader.parseKeyVal]
    rw [pySplit_append_cons '=' k v hne]
    simp only [List.headD_cons, List.tail_cons]
    rw [pyJoin_pySplit]
    rw [pyStrip_eq_self k hkeq, pyStrip_eq_self v hveq]
    rw [if_neg hig, if_neg hv, if_neg hlf]
  · exact fun c s => pyStripChars_no_boundary c s

/-- Claim C4, witness: the key line `k=""v""` parses to `v` with every
boundary quote layer removed. -/
theorem c4_witness :
    ConfigReader.parse_line [] []
        (['k'] ++ '=' :: [dquoteCh, dquoteCh, 'v', dquoteCh, dquoteCh]) =
      some (['k'], ConfigValue.str (pyStripChars [squoteCh]
        (pyStripChars [dquoteCh] [dquoteCh, dquoteCh, 'v', dquoteCh, dquoteCh]))) ∧
    ∀ (c : Char) (s : List Char),
      (pyStripChars [c] s).head? ≠ some c ∧ (pyStripChars [c] s).getLast? ≠ some c :=
  c4_theorem [] [] ['k'] [dquoteCh, dquoteCh, 'v', dquoteCh, dquoteCh]
    (by decide) (by decide) (by decide) (by decide) (by decide) (by decide)
